import Mathlib

/-!
Verification of the CSS parsing and style-resolution core of the
`rust-web-browser-from-scratch` repository (files `src/css.rs`,
`src/style.rs`, `src/dom.rs`), as a shallow embedding in Lean 4.

Modeling conventions:
* Rust `String`/`&str` values are modeled as `List Char`; positions count
  characters (the Rust code counts bytes, which coincides on ASCII input).
* Rust panics (`panic!`, `unwrap`, out-of-range slice indexing) are modeled
  by an explicit error type `Panic` carried in `Except`; each constructor
  corresponds to one panic site of the source and carries exactly the data
  that appears in the corresponding Rust panic message.
* `f32` values are modeled exactly as rationals (the numeric value of a
  length never influences the cascade logic verified here).
* Rust `HashMap`s are modeled as association lists with unique keys and
  first-match lookup; `sort_by` (a stable sort) is modeled by a stable
  insertion sort `sortStable`, which produces the unique stable result for
  the given total comparator.
* Loops of the recursive-descent parser take an explicit fuel argument;
  the top-level entry points pass `input.length + 1`, which is more fuel
  than any loop of the source can consume since every iteration consumes
  at least one character.
-/

namespace Browser

abbrev Str := List Char

/-! ### Lexicographic comparison of `Nat` tuples, as Rust derives `Ord` on tuples -/

def lexLE : List Nat → List Nat → Bool
  | [], _ => true
  | _ :: _, [] => false
  | x :: xs, y :: ys => decide (x < y) || (decide (x = y) && lexLE xs ys)

def lexLT (a b : List Nat) : Bool := lexLE a b && !(lexLE b a)

theorem lexLE_refl (l : List Nat) : lexLE l l = true := by
  induction l with
  | nil => rfl
  | cons x xs ih => simp [lexLE, ih]

theorem lexLE_total (a b : List Nat) : lexLE a b = true ∨ lexLE b a = true := by
  induction a generalizing b with
  | nil => left; rfl
  | cons x xs ih =>
    cases b with
    | nil => right; rfl
    | cons y ys =>
      rcases Nat.lt_trichotomy x y with h | h | h
      · left; simp [lexLE, h]
      · subst h
        rcases ih ys with h2 | h2
        · left; simp [lexLE, h2]
        · right; simp [lexLE, h2]
      · right; simp [lexLE, h]

theorem lexLE_trans {a b c : List Nat} (h1 : lexLE a b = true) (h2 : lexLE b c = true) :
    lexLE a c = true := by
  induction a generalizing b c with
  | nil => rfl
  | cons x xs ih =>
    cases b with
    | nil => simp [lexLE] at h1
    | cons y ys =>
      cases c with
      | nil => simp [lexLE] at h2
      | cons z zs =>
        simp only [lexLE, Bool.or_eq_true, Bool.and_eq_true, decide_eq_true_eq] at h1 h2 ⊢
        rcases h1 with h1 | ⟨h1e, h1r⟩
        · rcases h2 with h2 | ⟨h2e, h2r⟩
          · exact Or.inl (Nat.lt_trans h1 h2)
          · exact Or.inl (h2e ▸ h1)
        · rcases h2 with h2 | ⟨h2e, h2r⟩
          · exact Or.inl (h1e ▸ h2)
          · exact Or.inr ⟨h1e.trans h2e, ih h1r h2r⟩

/-! ### Stable sort: model of Rust `sort_by` with an ascending comparator.

`sortStable le l` places an element before the first already-sorted element
`y` with `le x y`; since elements already in the sorted suffix came later in
the original list, this reproduces exactly the stable-sort result. -/

def insertLe (le : α → α → Bool) (x : α) : List α → List α
  | [] => [x]
  | y :: l => if le x y then x :: y :: l else y :: insertLe le x l

def sortStable (le : α → α → Bool) : List α → List α
  | [] => []
  | x :: l => insertLe le x (sortStable le l)

theorem perm_insertLe (le : α → α → Bool) (x : α) (l : List α) :
    (insertLe le x l).Perm (x :: l) := by
  induction l with
  | nil => exact List.Perm.refl _
  | cons y l ih =>
    by_cases h : le x y
    · simp [insertLe, h]
    · simp only [insertLe, h, if_neg]
      exact (List.Perm.cons y ih).trans (List.Perm.swap x y l)

theorem perm_sortStable (le : α → α → Bool) (l : List α) :
    (sortStable le l).Perm l := by
  induction l with
  | nil => exact List.Perm.refl _
  | cons x l ih =>
    exact (perm_insertLe le x (sortStable le l)).trans (List.Perm.cons x ih)

theorem mem_insertLe {le : α → α → Bool} {x y : α} {l : List α} :
    y ∈ insertLe le x l ↔ y = x ∨ y ∈ l := by
  rw [(perm_insertLe le x l).mem_iff]
  simp

theorem pairwise_insertLe {le : α → α → Bool}
    (htot : ∀ a b, le a b = true ∨ le b a = true)
    (htrans : ∀ a b c, le a b = true → le b c = true → le a c = true)
    {x : α} {l : List α} (h : l.Pairwise (fun a b => le a b = true)) :
    (insertLe le x l).Pairwise (fun a b => le a b = true) := by
  induction l with
  | nil => simp [insertLe]
  | cons y l ih =>
    rcases List.pairwise_cons.mp h with ⟨hy, hl⟩
    by_cases hxy : le x y
    · simp only [insertLe, hxy, if_pos]
      refine List.pairwise_cons.mpr ⟨?_, h⟩
      intro z hz
      rcases List.mem_cons.mp hz with rfl | hz
      · exact hxy
      · exact htrans x y z hxy (hy _ hz)
    · simp only [insertLe, hxy, if_neg]
      refine List.pairwise_cons.mpr ⟨?_, ih hl⟩
      intro z hz
      rcases mem_insertLe.mp hz with rfl | hz
      · rcases htot y z with h2 | h2
        · exact h2
        · exact absurd h2 hxy
      · exact hy _ hz

theorem pairwise_sortStable {le : α → α → Bool}
    (htot : ∀ a b, le a b = true ∨ le b a = true)
    (htrans : ∀ a b c, le a b = true → le b c = true → le a c = true)
    (l : List α) : (sortStable le l).Pairwise (fun a b => le a b = true) := by
  induction l with
  | nil => simp [sortStable]
  | cons x l ih => exact pairwise_insertLe htot htrans ih

/-! ### Data model of `css.rs` -/

inductive Origin where
  | userAgent
  | user
  | author
deriving DecidableEq, Repr

inductive CssUnit where
  | px
deriving DecidableEq, Repr

structure Color where
  r : Nat
  g : Nat
  b : Nat
  a : Nat
deriving DecidableEq, Repr

inductive Value where
  | keyword (s : Str)
  | length (n : ℚ) (u : CssUnit)
  | colorValue (c : Color)
  | inherit
deriving DecidableEq, Repr

structure Declaration where
  name : Str
  value : Value
  important : Bool
deriving DecidableEq, Repr

structure SimpleSelector where
  tag_name : Option Str
  id : Option Str
  «class» : List Str
deriving DecidableEq, Repr

inductive Selector where
  | simple (s : SimpleSelector)
deriving DecidableEq, Repr

structure Rule where
  selectors : List Selector
  declarations : List Declaration
deriving DecidableEq, Repr

structure Stylesheet where
  rules : List Rule
  origin : Origin
deriving DecidableEq, Repr

abbrev Specificity := Nat × Nat × Nat

/-- `Selector::specificity`: (id count, class count, tag count) from `css.rs`. -/
def Selector.specificity : Selector → Specificity
  | .simple s =>
    ((match s.id with | some _ => 1 | none => 0),
     s.«class».length,
     (match s.tag_name with | some _ => 1 | none => 0))

/-- A specificity as a flat tuple for lexicographic comparison (Rust derives
lexicographic `Ord` on tuples). -/
def spec3 (s : Specificity) : List Nat := [s.1, s.2.1, s.2.2]

/-! ### The recursive-descent CSS parser of `css.rs`.

Each Rust panic site is one constructor of `Panic`, carrying the data of the
corresponding panic message. -/

inductive Panic where
  /-- `Option::unwrap` on `None` in `next_char` at end of input; no data. -/
  | unwrapNone
  /-- `expect_char`: `Expected {c} at byte {pos}`, position after consuming. -/
  | expectCharFail (c : Char) (pos : Nat)
  /-- `parse_float`: `Result::unwrap` on a `ParseFloatError`; no position. -/
  | floatConvFail
  /-- `parse_unit`: `unit {u} not recognized`; carries the lowercased unit. -/
  | unitFail (u : Str)
  /-- `parse_hex_pair`: slice `input[pos..pos+2]` out of range; carries the
  out-of-range end index, as the Rust message does. -/
  | sliceFail (endPos : Nat)
  /-- `parse_hex_pair`: `from_str_radix` unwrap on invalid digits; no position. -/
  | hexConvFail
  /-- `parse_selectors`: `Unexpected char {c} in selector list`; no position. -/
  | selectorFail (c : Char)
  /-- Modeling artifact: loop fuel exhausted. Top-level entry points pass more
  fuel than any run of the source can use, so this never fires for them. -/
  | outOfFuel
deriving DecidableEq, Repr

/-- Which data of a panic is a position/offset into the source. -/
def panicPosition : Panic → Option Nat
  | .expectCharFail _ p => some p
  | .sliceFail p => some p
  | _ => none

/-- Parser state: `struct Parser { pos: usize, input: String }`. -/
structure PState where
  pos : Nat
  input : Str
deriving DecidableEq, Repr

def lbrace : Char := Char.ofNat 123

def rbrace : Char := Char.ofNat 125

/-- `valid_identifier_char` from `css.rs` (note: inclusive ranges here). -/
def validIdentifierChar (c : Char) : Bool :=
  (decide ('a' ≤ c) && decide (c ≤ 'z')) ||
  (decide ('A' ≤ c) && decide (c ≤ 'Z')) ||
  (decide ('0' ≤ c) && decide (c ≤ '9')) ||
  c = '-' || c = '_'

/-- The character class of the Rust pattern `'0'..'9'` in `parse_value` and
`parse_float`: an EXCLUSIVE range, so it does not contain `'9'`. -/
def digitExclusive9 (c : Char) : Bool := decide ('0' ≤ c) && decide (c < '9')

/-- ASCII white space; stands for Rust `char::is_whitespace` (which is full
Unicode `White_Space`; they agree on ASCII input). -/
def rustWhitespace (c : Char) : Bool :=
  c = ' ' || c = '\t' || c = '\n' || c = '\x0d' || c = '\x0b' || c = '\x0c'

/-- `eof`: `self.pos >= self.input.len()`. -/
def eofP (st : PState) : Bool := decide (st.input.length ≤ st.pos)

/-- `next_char`: first char at the current position; `unwrap` panics at eof. -/
def nextCharP (st : PState) : Except Panic Char :=
  match st.input[st.pos]? with
  | some c => .ok c
  | none => .error .unwrapNone

/-- `consume_char`: `next_char`, then advance. -/
def consumeCharP (st : PState) : Except Panic (Char × PState) :=
  match st.input[st.pos]? with
  | some c => .ok (c, ⟨st.pos + 1, st.input⟩)
  | none => .error .unwrapNone

/-- `expect_char(c)`: consume one char and compare; the panic carries the
position AFTER the consume (the Rust code panics with the advanced `self.pos`). -/
def expectCharP (c : Char) (st : PState) : Except Panic PState :=
  match consumeCharP st with
  | .error e => .error e
  | .ok (c2, st2) => if c2 = c then .ok st2 else .error (.expectCharFail c st2.pos)

/-- `consume_while(test)`: greedy scan; total in the source, fueled here. -/
def consumeWhileP (fuel : Nat) (test : Char → Bool) (st : PState) : Str × PState :=
  match fuel with
  | 0 => ([], st)
  | f + 1 =>
    match st.input[st.pos]? with
    | some c =>
      if test c then
        let r := consumeWhileP f test ⟨st.pos + 1, st.input⟩
        (c :: r.1, r.2)
      else ([], st)
    | none => ([], st)

/-- `consume_whitespace`. -/
def consumeWhitespaceP (fuel : Nat) (st : PState) : PState :=
  (consumeWhileP fuel rustWhitespace st).2

/-- `parse_identifier`. -/
def parseIdentifierP (fuel : Nat) (st : PState) : Str × PState :=
  consumeWhileP fuel validIdentifierChar st

/-- `starts_with(s)`: `self.input[self.pos..].starts_with(s)`. -/
def startsWithP (st : PState) (s : Str) : Bool :=
  s.isPrefixOf (st.input.drop st.pos)

/-- Model of Rust `str::parse::<f32>` on the strings `parse_float` passes it
(runs of digits and dots): it succeeds iff the run has at least one digit and
at most one dot, producing the exact decimal value (`f32` rounding is
abstracted away; no verified claim inspects the numeric value). -/
def rustParseF32 (s : Str) : Option ℚ :=
  if s.all (fun c => c.isDigit || c = '.') && s.any Char.isDigit &&
     decide (s.count '.' ≤ 1) then
    let intPart := s.takeWhile (fun c => !(c = '.'))
    let fracPart := (s.dropWhile (fun c => !(c = '.'))).drop 1
    let digitsVal : Str → Nat := fun l => l.foldl (fun n c => 10 * n + (c.toNat - 48)) 0
    some ((digitsVal intPart : ℚ) + (digitsVal fracPart : ℚ) / ((10 : ℚ) ^ fracPart.length))
  else none

/-- `parse_float`: consume digits-and-dots (with the exclusive-`'9'` class of
the source pattern) and `parse().unwrap()`. -/
def parseFloatP (fuel : Nat) (st : PState) : Except Panic (ℚ × PState) :=
  let r := consumeWhileP fuel (fun c => digitExclusive9 c || c = '.') st
  match rustParseF32 r.1 with
  | some q => .ok (q, r.2)
  | none => .error .floatConvFail

/-- `parse_unit`: identifier, ASCII-lowercased, must be `px`. -/
def parseUnitP (fuel : Nat) (st : PState) : Except Panic (CssUnit × PState) :=
  let r := parseIdentifierP fuel st
  let lowered := r.1.map Char.toLower
  if lowered = "px".toList then .ok (.px, r.2) else .error (.unitFail lowered)

/-- `parse_length`. -/
def parseLengthP (fuel : Nat) (st : PState) : Except Panic (Value × PState) :=
  match parseFloatP fuel st with
  | .error e => .error e
  | .ok (q, st1) =>
    match parseUnitP fuel st1 with
    | .error e => .error e
    | .ok (u, st2) => .ok (.length q u, st2)

/-- One hex digit of `u8::from_str_radix(_, 16)`. -/
def hexDigitVal (c : Char) : Option Nat :=
  if '0' ≤ c ∧ c ≤ '9' then some (c.toNat - 48)
  else if 'a' ≤ c ∧ c ≤ 'f' then some (c.toNat - 97 + 10)
  else if 'A' ≤ c ∧ c ≤ 'F' then some (c.toNat - 65 + 10)
  else none

/-- Model of `u8::from_str_radix(s, 16)` on two-character strings: two hex
digits, or a leading `+` sign and one hex digit (as Rust accepts); anything
else is an `Err` that the source `unwrap`s. -/
def rustU8FromStrRadix16 (s : Str) : Option Nat :=
  match s with
  | [c1, c2] =>
    if c1 = '+' then hexDigitVal c2
    else
      match hexDigitVal c1, hexDigitVal c2 with
      | some a, some b => some (16 * a + b)
      | _, _ => none
  | _ => none

/-- `parse_hex_pair`: slices `input[pos..pos+2]` (the slice bounds check is the
explicit guard here; on failure the panic carries the end index `pos + 2`),
advances by 2 and `unwrap`s `from_str_radix`. -/
def parseHexPairP (st : PState) : Except Panic (Nat × PState) :=
  if st.input.length < st.pos + 2 then .error (.sliceFail (st.pos + 2))
  else
    let s := (st.input.drop st.pos).take 2
    match rustU8FromStrRadix16 s with
    | some n => .ok (n, ⟨st.pos + 2, st.input⟩)
    | none => .error .hexConvFail

/-- `parse_color`: `#` then three hex pairs, alpha 255. -/
def parseColorP (st : PState) : Except Panic (Value × PState) :=
  match expectCharP '#' st with
  | .error e => .error e
  | .ok st1 =>
    match parseHexPairP st1 with
    | .error e => .error e
    | .ok (r, st2) =>
      match parseHexPairP st2 with
      | .error e => .error e
      | .ok (g, st3) =>
        match parseHexPairP st3 with
        | .error e => .error e
        | .ok (b, st4) => .ok (.colorValue ⟨r, g, b, 255⟩, st4)

/-- `parse_value`: dispatch on the lookahead character. Note the first guard
is the source's EXCLUSIVE `'0'..'9'` pattern. -/
def parseValueP (fuel : Nat) (st : PState) : Except Panic (Value × PState) :=
  match nextCharP st with
  | .error e => .error e
  | .ok c =>
    if digitExclusive9 c then parseLengthP fuel st
    else if c = '#' then parseColorP st
    else
      let r := parseIdentifierP fuel st
      if r.1 = "inherit".toList then .ok (.inherit, r.2)
      else .ok (.keyword r.1, r.2)

/-- Comparator for `parse_selectors`' sort:
`sort_by(|a, b| b.specificity().cmp(&a.specificity()))`, i.e. ascending by
the comparator means descending by specificity. -/
def selGE (a b : Selector) : Bool :=
  lexLE (spec3 b.specificity) (spec3 a.specificity)

/-- The loop of `parse_simple_selector`: reads `#id`, `.class`, `*` and tag
identifiers until a non-matching character or eof. Each iteration consumes at
least one character, so `fuel > remaining input` never truncates. -/
def parseSimpleSelectorLoop (fuel : Nat) (sel : SimpleSelector) (st : PState) :
    SimpleSelector × PState :=
  match fuel with
  | 0 => (sel, st)
  | f + 1 =>
    match st.input[st.pos]? with
    | none => (sel, st)
    | some c =>
      if c = '#' then
        let r := parseIdentifierP f ⟨st.pos + 1, st.input⟩
        parseSimpleSelectorLoop f { sel with id := some r.1 } r.2
      else if c = '.' then
        let r := parseIdentifierP f ⟨st.pos + 1, st.input⟩
        parseSimpleSelectorLoop f { sel with «class» := sel.«class» ++ [r.1] } r.2
      else if c = '*' then
        parseSimpleSelectorLoop f sel ⟨st.pos + 1, st.input⟩
      else if validIdentifierChar c then
        let r := parseIdentifierP f st
        parseSimpleSelectorLoop f { sel with tag_name := some r.1 } r.2
      else (sel, st)

/-- `parse_simple_selector`, starting from the all-empty selector. -/
def parseSimpleSelectorP (fuel : Nat) (st : PState) : SimpleSelector × PState :=
  parseSimpleSelectorLoop fuel ⟨none, none, []⟩ st

/-- The collection loop of `parse_selectors`: one simple selector per
iteration, separated by `,`, terminated by `{` (left unconsumed). -/
def parseSelectorsLoop (fuel : Nat) (acc : List Selector) (st : PState) :
    Except Panic (List Selector × PState) :=
  match fuel with
  | 0 => .error .outOfFuel
  | f + 1 =>
    let r := parseSimpleSelectorP f st
    let acc2 := acc ++ [Selector.simple r.1]
    let st2 := consumeWhitespaceP f r.2
    match st2.input[st2.pos]? with
    | none => .error .unwrapNone
    | some c =>
      if c = ',' then
        parseSelectorsLoop f acc2 (consumeWhitespaceP f ⟨st2.pos + 1, st2.input⟩)
      else if c = lbrace then .ok (acc2, st2)
      else .error (.selectorFail c)

/-- `parse_selectors`: collect, then sort with highest specificity first
(stable `sort_by`). -/
def parseSelectorsP (fuel : Nat) (st : PState) : Except Panic (List Selector × PState) :=
  match parseSelectorsLoop fuel [] st with
  | .error e => .error e
  | .ok (sels, st2) => .ok (sortStable selGE sels, st2)

/-- `parse_declaration`: `name ':' value ('!important')? ';'`. -/
def parseDeclarationP (fuel : Nat) (st : PState) : Except Panic (Declaration × PState) :=
  let rn := parseIdentifierP fuel st
  let st2 := consumeWhitespaceP fuel rn.2
  match expectCharP ':' st2 with
  | .error e => .error e
  | .ok st3 =>
    let st4 := consumeWhitespaceP fuel st3
    match parseValueP fuel st4 with
    | .error e => .error e
    | .ok (v, st5) =>
      let st6 := consumeWhitespaceP fuel st5
      let ri :=
        if startsWithP st6 "!important".toList then
          (true, consumeWhitespaceP fuel ⟨st6.pos + 10, st6.input⟩)
        else (false, st6)
      match expectCharP ';' ri.2 with
      | .error e => .error e
      | .ok st7 => .ok (⟨rn.1, v, ri.1⟩, st7)

/-- The loop of `parse_declarations`: whitespace, then either `}` (consumed,
stop) or one declaration. -/
def parseDeclarationsLoop (fuel : Nat) (acc : List Declaration) (st : PState) :
    Except Panic (List Declaration × PState) :=
  match fuel with
  | 0 => .error .outOfFuel
  | f + 1 =>
    let st1 := consumeWhitespaceP f st
    match st1.input[st1.pos]? with
    | none => .error .unwrapNone
    | some c =>
      if c = rbrace then .ok (acc, ⟨st1.pos + 1, st1.input⟩)
      else
        match parseDeclarationP f st1 with
        | .error e => .error e
        | .ok (d, st2) => parseDeclarationsLoop f (acc ++ [d]) st2

/-- `parse_declarations`: `{`, declarations, `}`. -/
def parseDeclarationsP (fuel : Nat) (st : PState) :
    Except Panic (List Declaration × PState) :=
  match expectCharP lbrace st with
  | .error e => .error e
  | .ok st1 => parseDeclarationsLoop fuel [] st1

/-- `parse_rule`: selector list then declaration block. -/
def parseRuleP (fuel : Nat) (st : PState) : Except Panic (Rule × PState) :=
  match parseSelectorsP fuel st with
  | .error e => .error e
  | .ok (sels, st1) =>
    match parseDeclarationsP fuel st1 with
    | .error e => .error e
    | .ok (ds, st2) => .ok (⟨sels, ds⟩, st2)

/-- The loop of `parse_rules`: whitespace, stop at eof, else one rule. -/
def parseRulesLoop (fuel : Nat) (acc : List Rule) (st : PState) :
    Except Panic (List Rule × PState) :=
  match fuel with
  | 0 => .error .outOfFuel
  | f + 1 =>
    let st1 := consumeWhitespaceP f st
    if st1.input.length ≤ st1.pos then .ok (acc, st1)
    else
      match parseRuleP f st1 with
      | .error e => .error e
      | .ok (r, st2) => parseRulesLoop f (acc ++ [r]) st2

/-- `parse(source, origin)` from `css.rs`: parse all rules and tag the
stylesheet with its origin. A `Panic` value models the Rust panic that
aborts parsing. -/
def cssParse (source : Str) (origin : Origin) : Except Panic Stylesheet :=
  match parseRulesLoop (source.length + 1) [] ⟨0, source⟩ with
  | .error e => .error e
  | .ok (rules, _) => .ok ⟨rules, origin⟩

/-! ### DOM model of `dom.rs` (the fields the style engine reads) -/

abbrev AttrsMap := List (Str × Str)

structure ElementData where
  tag_name : Str
  attrs : AttrsMap
deriving DecidableEq, Repr

inductive NodeType where
  | text (s : Str)
  | element (e : ElementData)
  | comment (s : Str)

inductive Node where
  | mk (children : List Node) (node_type : NodeType)

def Node.children : Node → List Node
  | .mk cs _ => cs

def Node.node_type : Node → NodeType
  | .mk _ nt => nt

/-- First-match association-list lookup: model of `HashMap::get` (keys of the
maps built here are unique). -/
def alookup (m : List (Str × α)) (k : Str) : Option α :=
  match m with
  | [] => none
  | (k2, v) :: rest => if k2 = k then some v else alookup rest k

/-- `ElementData::id`. -/
def elemId (e : ElementData) : Option Str := alookup e.attrs "id".toList

/-- Rust `str::split(sep)`: splits at every occurrence, keeping empty pieces
(so the empty string yields `[""]`, as in Rust). -/
def splitOnChar (sep : Char) : Str → List Str
  | [] => [[]]
  | c :: rest =>
    match splitOnChar sep rest with
    | g :: gs => if c = sep then [] :: g :: gs else (c :: g) :: gs
    | [] => [[c]]

/-- `ElementData::classes`: split the `class` attribute on spaces (a
`HashSet` in Rust; a list with the same membership here). -/
def elemClasses (e : ElementData) : List Str :=
  match alookup e.attrs "class".toList with
  | some cl => splitOnChar ' ' cl
  | none => []

/-! ### Selector matching and the cascade engine of `style.rs` -/

/-- `matches_simple_selector`: a present tag/id constraint must equal the
element's tag/id; every class constraint must be a member of the element's
class set. -/
def matchesSimpleSelector (e : ElementData) (s : SimpleSelector) : Bool :=
  if s.tag_name.any (fun n => !(e.tag_name = n : Bool)) then false
  else if s.id.any (fun i => !(elemId e = some i : Bool)) then false
  else if s.«class».any (fun c => !((elemClasses e).contains c)) then false
  else true

/-- `matches`. -/
def matchesSel (e : ElementData) : Selector → Bool
  | .simple s => matchesSimpleSelector e s

/-- `match_rule`: first matching selector of the (pre-sorted) list gives the
rule's effective specificity. -/
def matchRule (e : ElementData) (rule : Rule) : Option (Specificity × Rule) :=
  (rule.selectors.find? (fun s => matchesSel e s)).map
    (fun s => (s.specificity, rule))

abbrev CascadeKey := Nat × Specificity × Nat

/-- A cascade key as a flat 5-tuple for lexicographic comparison. -/
def key5 (k : CascadeKey) : List Nat :=
  [k.1, k.2.1.1, k.2.1.2.1, k.2.1.2.2, k.2.2]

structure CascadedDeclaration where
  declaration : Declaration
  cascade_key : CascadeKey
deriving DecidableEq, Repr

/-- Comparator of `cascaded_declarations.sort_by(|a, b| a.cascade_key.cmp(&b.cascade_key))`. -/
def candLE (a b : CascadedDeclaration) : Bool :=
  lexLE (key5 a.cascade_key) (key5 b.cascade_key)

/-- Strictly-greater key test, derived from the source comparator. -/
def keyGTb (a b : CascadedDeclaration) : Bool :=
  candLE b a && !(candLE a b)

/-- The `origin_importance` table of `specified_values`. -/
def originImportance (o : Origin) (important : Bool) : Nat :=
  match o, important with
  | .userAgent, false => 0
  | .user, false => 1
  | .author, false => 2
  | .userAgent, true => 3
  | .user, true => 4
  | .author, true => 5

/-- Candidates contributed by one rule (at index `idx` of its stylesheet):
every declaration of a matched rule, keyed by
`(origin_importance, specificity, rule_index)`. -/
def ruleCandidates (e : ElementData) (o : Origin) (idx : Nat) (rule : Rule) :
    List CascadedDeclaration :=
  match matchRule e rule with
  | some (spec, _) =>
    rule.declarations.map (fun d => ⟨d, (originImportance o d.important, spec, idx)⟩)
  | none => []

/-- Candidates of one stylesheet, enumerating its rules. -/
def sheetCandidates (e : ElementData) (sheet : Stylesheet) : List CascadedDeclaration :=
  sheet.rules.enum.flatMap (fun p => ruleCandidates e sheet.origin p.1 p.2)

/-- Candidates collected from all stylesheets, in order. -/
def stylesheetCandidates (e : ElementData) (sheets : List Stylesheet) :
    List CascadedDeclaration :=
  sheets.flatMap (fun sheet => sheetCandidates e sheet)

/-- `parse_style_attribute`: wraps the attribute text as
`dummy { <style> }`, parses it with the CSS parser, catching the panic
(`catch_unwind`); returns the first rule's declarations on success. -/
def parseStyleAttribute (style : Str) : Option (List Declaration) :=
  let wrapped := "dummy ".toList ++ [lbrace] ++ " ".toList ++ style
                 ++ " ".toList ++ [rbrace]
  match cssParse wrapped .author with
  | .ok sheet =>
    match sheet.rules with
    | r :: _ => some r.declarations
    | [] => none
  | .error _ => none

/-- Inline candidates from the element's `style` attribute: parsed
declarations (zero on parse failure), keyed by
`(if important then 5 else 4, (1,0,0), 999999)`. -/
def inlineCandidates (e : ElementData) : List CascadedDeclaration :=
  let styleDecls :=
    match alookup e.attrs "style".toList with
    | some sa =>
      match parseStyleAttribute sa with
      | some ds => ds
      | none => []
    | none => []
  styleDecls.map (fun d =>
    ⟨d, ((if d.important then 5 else 4), (1, 0, 0), 999999)⟩)

/-- All candidates of `specified_values`, in push order: stylesheet
candidates first, then inline candidates. -/
def allCandidates (e : ElementData) (sheets : List Stylesheet) :
    List CascadedDeclaration :=
  stylesheetCandidates e sheets ++ inlineCandidates e

abbrev PropertyMap := List (Str × Value)

/-- `HashMap::insert`: replace the binding of `k` if present, else append. -/
def mapInsert (m : PropertyMap) (k : Str) (v : Value) : PropertyMap :=
  match m with
  | [] => [(k, v)]
  | (k2, v2) :: rest =>
    if k2 = k then (k, v) :: rest else (k2, v2) :: mapInsert rest k v

/-- `specified_values` from `style.rs`: collect candidates, sort ascending by
cascade key (stable), fold left to right with overwrite. -/
def specifiedValues (e : ElementData) (sheets : List Stylesheet) : PropertyMap :=
  (sortStable candLE (allCandidates e sheets)).foldl
    (fun m c => mapInsert m c.declaration.name c.declaration.value) []

/-- The same fold restricted to the stylesheet-rule candidates (what matching
stylesheet rules alone produce); used to state the inline-failure claim. -/
def ruleOnlySpecifiedValues (e : ElementData) (sheets : List Stylesheet) : PropertyMap :=
  (sortStable candLE (stylesheetCandidates e sheets)).foldl
    (fun m c => mapInsert m c.declaration.name c.declaration.value) []

/-- The candidates for one property name (the source decides the winner
independently per name). -/
def candidatesFor (e : ElementData) (sheets : List Stylesheet) (p : Str) :
    List CascadedDeclaration :=
  (allCandidates e sheets).filter (fun c => decide (c.declaration.name = p))

/-! ### Inheritance, initial values and the style tree of `style.rs` -/

/-- `INHERITED_PROPERTIES`. -/
def INHERITED_PROPERTIES : List Str :=
  ["color".toList, "font-family".toList, "font-size".toList,
   "font-style".toList, "font-weight".toList, "line-height".toList,
   "text-align".toList, "text-decoration".toList, "text-indent".toList,
   "visibility".toList, "white-space".toList, "word-spacing".toList,
   "letter-spacing".toList]

/-- `is_inherited_property`. -/
def isInheritedProperty (p : Str) : Bool := INHERITED_PROPERTIES.contains p

/-- `get_initial_value`. -/
def getInitialValue (p : Str) : Value :=
  if p = "display".toList then .keyword "inline".toList
  else if p = "color".toList then .colorValue ⟨0, 0, 0, 255⟩
  else if p = "font-size".toList then .length 16 .px
  else if p = "font-weight".toList then .keyword "normal".toList
  else if p = "font-style".toList then .keyword "normal".toList
  else if p = "text-align".toList then .keyword "left".toList
  else if p = "text-decoration".toList then .keyword "none".toList
  else if p = "visibility".toList then .keyword "visible".toList
  else if p = "white-space".toList then .keyword "normal".toList
  else .keyword "initial".toList

/-- The loop body of `apply_inheritance` over the parent's entries: copy the
parent's value when the child's value is literally `Inherit`, or the property
is inheritable and the child has no binding. -/
def inheritFold (values : PropertyMap) : List (Str × Value) → PropertyMap
  | [] => values
  | (q, v) :: rest =>
    inheritFold
      (if alookup values q = some Value.inherit ∨
          (isInheritedProperty q = true ∧ alookup values q = none)
       then mapInsert values q v else values)
      rest

/-- `apply_inheritance`. -/
def applyInheritance (values : PropertyMap) (parentValues : Option PropertyMap) :
    PropertyMap :=
  match parentValues with
  | none => values
  | some ps => inheritFold values ps

/-- The loop of `apply_initial_values` over the fixed property list. -/
def initFold (values : PropertyMap) : List Str → PropertyMap
  | [] => values
  | p :: rest =>
    initFold
      (if alookup values p = none then mapInsert values p (getInitialValue p)
       else values)
      rest

/-- `apply_initial_values`: fill `display`, `color`, `font-size` if absent. -/
def applyInitialValues (values : PropertyMap) : PropertyMap :=
  initFold values ["display".toList, "color".toList, "font-size".toList]

inductive StyledNode where
  | mk (specified_values : PropertyMap) (children : List StyledNode)

def StyledNode.specified_values : StyledNode → PropertyMap
  | .mk sv _ => sv

def StyledNode.children : StyledNode → List StyledNode
  | .mk _ cs => cs

mutual

/-- `style_tree_with_parent` (the `node` back-reference of the Rust struct is
a borrow into the input tree and is not reproduced): elements cascade then
inherit then take initial values; text nodes only inherit into an empty map;
comments get an empty map. Children are styled with this node's map as
parent. -/
def styleTreeWithParent (sheets : List Stylesheet) (parentValues : Option PropertyMap) :
    Node → StyledNode
  | .mk children nt =>
    let sv : PropertyMap :=
      match nt with
      | .element e =>
        applyInitialValues (applyInheritance (specifiedValues e sheets) parentValues)
      | .text _ => applyInheritance [] parentValues
      | .comment _ => []
    StyledNode.mk sv (styleChildren sheets (some sv) children)

def styleChildren (sheets : List Stylesheet) (parentValues : Option PropertyMap) :
    List Node → List StyledNode
  | [] => []
  | c :: cs =>
    styleTreeWithParent sheets parentValues c :: styleChildren sheets parentValues cs

end

/-- `style_tree`. -/
def styleTree (root : Node) (sheets : List Stylesheet) : StyledNode :=
  styleTreeWithParent sheets none root

/-! ### Lemmas about the association-list map and the cascade fold -/

theorem alookup_mapInsert (m : PropertyMap) (k : Str) (v : Value) (p : Str) :
    alookup (mapInsert m k v) p = if k = p then some v else alookup m p := by
  induction m with
  | nil => simp [mapInsert, alookup]
  | cons kv rest ih =>
    obtain ⟨k2, v2⟩ := kv
    by_cases h : k2 = k
    · subst h
      by_cases h2 : k2 = p
      · subst h2
        simp [mapInsert, alookup]
      · simp [mapInsert, alookup, h2]
    · by_cases h2 : k2 = p
      · subst h2
        have hk : ¬ k = k2 := fun he => h he.symm
        simp [mapInsert, alookup, h, hk]
      · simp [mapInsert, alookup, h, h2, ih]

theorem alookup_eq_none_iff (m : List (Str × α)) (p : Str) :
    alookup m p = none ↔ ∀ kv ∈ m, kv.1 ≠ p := by
  induction m with
  | nil => simp [alookup]
  | cons kv rest ih =>
    obtain ⟨k2, v2⟩ := kv
    by_cases h : k2 = p
    · subst h
      simp only [alookup, if_pos rfl]
      constructor
      · intro hc
        exact absurd hc (by simp)
      · intro hall
        exact absurd rfl (hall (k2, v2) (List.mem_cons_self _ _))
    · simp only [alookup, if_neg h, ih]
      constructor
      · intro hall kv hkv
        rcases List.mem_cons.mp hkv with rfl | hkv
        · exact h
        · exact hall kv hkv
      · intro hall kv hkv
        exact hall kv (List.mem_cons_of_mem _ hkv)

/-- The rightmost candidate for property `p` in a candidate list: the winner
of the left-to-right overwrite fold. -/
def lastWins (L : List CascadedDeclaration) (p : Str) : Option Value :=
  match L with
  | [] => none
  | c :: rest =>
    match lastWins rest p with
    | some v => some v
    | none => if c.declaration.name = p then some c.declaration.value else none

theorem alookup_foldl_mapInsert (L : List CascadedDeclaration) (m : PropertyMap) (p : Str) :
    alookup (L.foldl (fun m c => mapInsert m c.declaration.name c.declaration.value) m) p
      = match lastWins L p with
        | some v => some v
        | none => alookup m p := by
  induction L generalizing m with
  | nil => simp [lastWins]
  | cons c L ih =>
    simp only [List.foldl_cons, lastWins, ih, alookup_mapInsert]
    cases lastWins L p with
    | some v => simp
    | none =>
      by_cases h : c.declaration.name = p <;> simp [h]

theorem lastWins_none {L : List CascadedDeclaration} {p : Str}
    (h : lastWins L p = none) : ∀ c ∈ L, c.declaration.name ≠ p := by
  induction L with
  | nil => simp
  | cons c L ih =>
    simp only [lastWins] at h
    rcases h2 : lastWins L p with _ | v
    · rw [h2] at h
      intro c2 hc2
      rcases List.mem_cons.mp hc2 with rfl | hc2
      · intro he
        simp [he] at h
      · exact ih h2 c2 hc2
    · rw [h2] at h
      exact absurd h (by simp)

theorem lastWins_max {L : List CascadedDeclaration} {p : Str} {v : Value}
    (hp : L.Pairwise (fun a b => candLE a b = true))
    (h : lastWins L p = some v) :
    ∃ c ∈ L, c.declaration.name = p ∧ c.declaration.value = v ∧
      ∀ c2 ∈ L, c2.declaration.name = p → candLE c2 c = true := by
  induction L with
  | nil => simp [lastWins] at h
  | cons c0 L ih =>
    rcases List.pairwise_cons.mp hp with ⟨hhead, htail⟩
    simp only [lastWins] at h
    rcases h2 : lastWins L p with _ | v2
    · rw [h2] at h
      by_cases hn : c0.declaration.name = p
      · rw [if_pos hn] at h
        refine ⟨c0, List.mem_cons_self _ _, hn, by injection h, ?_⟩
        intro c2 hc2 hc2n
        rcases List.mem_cons.mp hc2 with rfl | hc2
        · exact lexLE_refl _
        · exact absurd hc2n (lastWins_none h2 c2 hc2)
      · rw [if_neg hn] at h
        exact absurd h (by simp)
    · rw [h2] at h
      injection h with hv
      subst hv
      obtain ⟨c, hc, hcn, hcv, hcmax⟩ := ih htail h2
      refine ⟨c, List.mem_cons_of_mem _ hc, hcn, hcv, ?_⟩
      intro c2 hc2 hc2n
      rcases List.mem_cons.mp hc2 with rfl | hc2
      · exact hhead c hc
      · exact hcmax c2 hc2 hc2n

theorem candLE_total (a b : CascadedDeclaration) :
    candLE a b = true ∨ candLE b a = true := lexLE_total _ _

theorem candLE_trans (a b c : CascadedDeclaration)
    (h1 : candLE a b = true) (h2 : candLE b c = true) : candLE a c = true :=
  lexLE_trans h1 h2

/-- The resolved value at `p` is the rightmost sorted candidate named `p`. -/
theorem specifiedValues_alookup (e : ElementData) (sheets : List Stylesheet) (p : Str) :
    alookup (specifiedValues e sheets) p
      = lastWins (sortStable candLE (allCandidates e sheets)) p := by
  rw [specifiedValues, alookup_foldl_mapInsert]
  cases lastWins (sortStable candLE (allCandidates e sheets)) p <;> simp [alookup]

/-- Shared cascade lemma: per property name, resolution yields nothing when
there is no candidate, else the value of a maximal-key candidate. -/
theorem cascade_winner (e : ElementData) (sheets : List Stylesheet) (p : Str) :
    (candidatesFor e sheets p = [] ∧ alookup (specifiedValues e sheets) p = none)
    ∨ ∃ c ∈ candidatesFor e sheets p,
        (∀ c2 ∈ candidatesFor e sheets p, candLE c2 c = true)
        ∧ alookup (specifiedValues e sheets) p = some c.declaration.value := by
  have hperm := perm_sortStable candLE (allCandidates e sheets)
  have hpair := pairwise_sortStable candLE_total candLE_trans (allCandidates e sheets)
  rw [specifiedValues_alookup]
  rcases h : lastWins (sortStable candLE (allCandidates e sheets)) p with _ | v
  · left
    refine ⟨?_, rfl⟩
    rw [candidatesFor, List.filter_eq_nil_iff]
    intro c hc
    simp only [decide_eq_true_eq]
    exact lastWins_none h c (hperm.mem_iff.mpr hc)
  · right
    obtain ⟨c, hc, hcn, hcv, hmax⟩ := lastWins_max hpair h
    refine ⟨c, ?_, ?_, ?_⟩
    · rw [candidatesFor, List.mem_filter]
      exact ⟨hperm.mem_iff.mp hc, by simp [hcn]⟩
    · intro c2 hc2
      rw [candidatesFor, List.mem_filter] at hc2
      obtain ⟨hc2m, hc2n⟩ := hc2
      simp only [decide_eq_true_eq] at hc2n
      exact hmax c2 (hperm.mem_iff.mpr hc2m) hc2n
    · rw [hcv]

/-! ### Claim C1 -/

/-- Claim C1: for every element, ordered stylesheet sequence (and the
element's optional inline style, which contributes to the candidate list),
the resolved `PropertyMap` maps each property name either to nothing (when no
candidate carries that name) or to the value of a candidate whose cascade key
`(priorityRank, specificity, ruleIndex)` is maximal among all candidates for
that name, decided independently per property name; the implementation
achieves this by the ascending stable sort and overwrite fold of
`specified_values`. -/
theorem claim1_max_key_wins (e : ElementData) (sheets : List Stylesheet) (p : Str) :
    (candidatesFor e sheets p = [] ∧ alookup (specifiedValues e sheets) p = none)
    ∨ ∃ c ∈ candidatesFor e sheets p,
        (∀ c2 ∈ candidatesFor e sheets p, candLE c2 c = true)
        ∧ alookup (specifiedValues e sheets) p = some c.declaration.value :=
  cascade_winner e sheets p

/-! ### Claim C3 -/

theorem lexLE_head_le {a b : Nat} {xs ys : List Nat}
    (h : lexLE (a :: xs) (b :: ys) = true) : a ≤ b := by
  simp only [lexLE, Bool.or_eq_true, Bool.and_eq_true, decide_eq_true_eq] at h
  rcases h with h | ⟨h, _⟩
  · exact Nat.le_of_lt h
  · exact Nat.le_of_eq h

theorem candLE_rank_le {a b : CascadedDeclaration} (h : candLE a b = true) :
    a.cascade_key.1 ≤ b.cascade_key.1 := by
  have h2 : lexLE (key5 a.cascade_key) (key5 b.cascade_key) = true := h
  rw [key5, key5] at h2
  exact lexLE_head_le h2

/-- Claim C3: when the candidates for a property are exactly one declaration
from a UserAgent-origin stylesheet and one from an Author-origin stylesheet
(in either role of selector specificity and rule index, recorded in their
cascade keys): both non-important resolves to the Author value; UserAgent
`!important` against non-important Author resolves to the UserAgent value. -/
theorem claim3_origin_precedence (e : ElementData) (sheets : List Stylesheet)
    (p : Str) (c1 c2 : CascadedDeclaration)
    (h : candidatesFor e sheets p = [c1, c2]) :
    ((c1.cascade_key.1 = originImportance .userAgent false ∧
      c2.cascade_key.1 = originImportance .author false) →
        alookup (specifiedValues e sheets) p = some c2.declaration.value)
    ∧ ((c1.cascade_key.1 = originImportance .userAgent true ∧
      c2.cascade_key.1 = originImportance .author false) →
        alookup (specifiedValues e sheets) p = some c1.declaration.value) := by
  rcases cascade_winner e sheets p with ⟨hnil, _⟩ | ⟨c, hc, hmax, heq⟩
  · rw [h] at hnil
    exact absurd hnil (by simp)
  · rw [h] at hc
    have hm1 : candLE c1 c = true := hmax c1 (by rw [h]; simp)
    have hm2 : candLE c2 c = true := hmax c2 (by rw [h]; simp)
    constructor
    · rintro ⟨h1, h2⟩
      simp only [originImportance] at h1 h2
      rcases List.mem_cons.mp hc with rfl | hc2
      · have := candLE_rank_le hm2
        omega
      · rcases List.mem_cons.mp hc2 with rfl | hc3
        · exact heq
        · simp at hc3
    · rintro ⟨h1, h2⟩
      simp only [originImportance] at h1 h2
      rcases List.mem_cons.mp hc with rfl | hc2
      · exact heq
      · rcases List.mem_cons.mp hc2 with rfl | hc3
        · have := candLE_rank_le hm1
          omega
        · simp at hc3

def w3elem : ElementData := ⟨"div".toList, []⟩

def w3sel : Selector := .simple ⟨none, none, []⟩

def w3ua : Stylesheet :=
  ⟨[⟨[w3sel], [⟨"color".toList, .keyword "white".toList, false⟩]⟩], .userAgent⟩

def w3uaImp : Stylesheet :=
  ⟨[⟨[w3sel], [⟨"color".toList, .keyword "white".toList, true⟩]⟩], .userAgent⟩

def w3author : Stylesheet :=
  ⟨[⟨[w3sel], [⟨"color".toList, .keyword "black".toList, false⟩]⟩], .author⟩

def w3cua : CascadedDeclaration :=
  ⟨⟨"color".toList, .keyword "white".toList, false⟩, (0, (0, 0, 0), 0)⟩

def w3cuaImp : CascadedDeclaration :=
  ⟨⟨"color".toList, .keyword "white".toList, true⟩, (3, (0, 0, 0), 0)⟩

def w3ca : CascadedDeclaration :=
  ⟨⟨"color".toList, .keyword "black".toList, false⟩, (2, (0, 0, 0), 0)⟩

/-- Witness for claim C3 at a concrete element and stylesheets: Author black
beats UserAgent white when both are plain; UserAgent white `!important`
beats Author black. -/
theorem claim3_witness :
    alookup (specifiedValues w3elem [w3ua, w3author]) "color".toList
      = some (.keyword "black".toList)
    ∧ alookup (specifiedValues w3elem [w3uaImp, w3author]) "color".toList
      = some (.keyword "white".toList) :=
  ⟨(claim3_origin_precedence w3elem [w3ua, w3author] "color".toList w3cua w3ca
      (by decide)).1 ⟨by decide, by decide⟩,
   (claim3_origin_precedence w3elem [w3uaImp, w3author] "color".toList w3cuaImp w3ca
      (by decide)).2 ⟨by decide, by decide⟩⟩

/-! ### Claim C4 -/

theorem lexLE_cons_same (x : Nat) (a b : List Nat) :
    lexLE (x :: a) (x :: b) = lexLE a b := by
  simp [lexLE]

theorem inlineCandidates_key {e : ElementData} {c : CascadedDeclaration}
    (h : c ∈ inlineCandidates e) :
    c.cascade_key = ((if c.declaration.important then 5 else 4), (1, 0, 0), 999999) := by
  simp only [inlineCandidates] at h
  obtain ⟨d, hd, rfl⟩ := List.mem_map.mp h
  rfl

/-- Claim C4 (amended): an inline candidate's cascade key is strictly greater
than that of any selector-matched Author-origin declaration of the same
importance when both are non-important, regardless of the Author rule's
specificity and index; but when both are `!important`, the inline key
`(5, (1,0,0), 999999)` is strictly greater exactly when the Author
candidate's `(specificity, ruleIndex)` is lexicographically below
`((1,0,0), 999999)` — a matched Author `!important` selector of specificity
above `(1,0,0)` beats the inline declaration. -/
theorem claim4_inline_priority (e : ElementData) (c : CascadedDeclaration)
    (d2 : Declaration) (s1 s2 s3 i : Nat)
    (hc : c ∈ inlineCandidates e) :
    (c.declaration.important = false →
      keyGTb c ⟨d2, (originImportance .author false, (s1, s2, s3), i)⟩ = true)
    ∧ (c.declaration.important = true →
      keyGTb c ⟨d2, (originImportance .author true, (s1, s2, s3), i)⟩
        = lexLT [s1, s2, s3, i] [1, 0, 0, 999999]) := by
  have hk := inlineCandidates_key hc
  constructor
  · intro himp
    rw [himp] at hk
    simp only [Bool.false_eq_true, if_false] at hk
    simp [keyGTb, candLE, key5, hk, originImportance, lexLE]
  · intro himp
    rw [himp] at hk
    simp only [if_true] at hk
    simp only [keyGTb, candLE, key5, hk, originImportance]
    rw [show ((5 : Nat) :: [s1, s2, s3, i] : List Nat) = 5 :: [s1, s2, s3, i] from rfl,
        lexLE_cons_same, lexLE_cons_same, lexLT]

def c4elem : ElementData :=
  ⟨"div".toList,
   [("id".toList, "main".toList), ("style".toList, "color: red !important;".toList)]⟩

def c4sheet : Stylesheet :=
  ⟨[⟨[.simple ⟨some "div".toList, some "main".toList, []⟩],
     [⟨"color".toList, .keyword "blue".toList, true⟩]⟩], .author⟩

def c4inline : CascadedDeclaration :=
  ⟨⟨"color".toList, .keyword "red".toList, true⟩, (5, (1, 0, 0), 999999)⟩

def c4authorCand : CascadedDeclaration :=
  ⟨⟨"color".toList, .keyword "blue".toList, true⟩, (5, (1, 0, 1), 0)⟩

/-- Counterexample to claim C4 as stated: element `div#main` with inline
`color: red !important` and Author rule `div#main { color: blue !important; }`
(equal importance). The matched Author candidate's key `(5,(1,0,1),0)` is not
below the inline key `(5,(1,0,0),999999)` — the inline key is NOT strictly
greater — and resolution returns the Author value blue. -/
theorem claim4_counterexample :
    allCandidates c4elem [c4sheet] = [c4authorCand, c4inline]
    ∧ keyGTb c4inline c4authorCand = false
    ∧ alookup (specifiedValues c4elem [c4sheet]) "color".toList
        = some (.keyword "blue".toList) :=
  ⟨by decide, by decide, by decide⟩

def w4elem : ElementData :=
  ⟨"p".toList, [("style".toList, "color: red;".toList)]⟩

def w4elemImp : ElementData :=
  ⟨"p".toList, [("style".toList, "color: red !important;".toList)]⟩

def w4inline : CascadedDeclaration :=
  ⟨⟨"color".toList, .keyword "red".toList, false⟩, (4, (1, 0, 0), 999999)⟩

def w4inlineImp : CascadedDeclaration :=
  ⟨⟨"color".toList, .keyword "red".toList, true⟩, (5, (1, 0, 0), 999999)⟩

/-- Witness for the amended claim C4 at concrete inline candidates: the
non-important inline key beats an Author tag-selector candidate; in the
`!important` case the comparison reduces to the stated lexicographic test. -/
theorem claim4_witness :
    keyGTb w4inline
      ⟨⟨"color".toList, .keyword "blue".toList, false⟩, (2, (0, 0, 1), 0)⟩ = true
    ∧ keyGTb w4inlineImp
      ⟨⟨"color".toList, .keyword "blue".toList, true⟩, (5, (0, 0, 1), 0)⟩
        = lexLT [0, 0, 1, 0] [1, 0, 0, 999999] :=
  ⟨(claim4_inline_priority w4elem w4inline
      ⟨"color".toList, .keyword "blue".toList, false⟩ 0 0 1 0 (by decide)).1 (by decide),
   (claim4_inline_priority w4elemImp w4inlineImp
      ⟨"color".toList, .keyword "blue".toList, true⟩ 0 0 1 0 (by decide)).2 (by decide)⟩

/-! ### Claim C2 -/

theorem selGE_total (a b : Selector) : selGE a b = true ∨ selGE b a = true :=
  (lexLE_total (spec3 b.specificity) (spec3 a.specificity)).imp id id

theorem selGE_trans (a b c : Selector)
    (h1 : selGE a b = true) (h2 : selGE b c = true) : selGE a c = true :=
  lexLE_trans h2 h1

theorem parseSelectorsP_sorted {fuel : Nat} {st st2 : PState} {sels : List Selector}
    (h : parseSelectorsP fuel st = .ok (sels, st2)) :
    sels.Pairwise (fun a b => selGE a b = true) := by
  rw [parseSelectorsP] at h
  rcases hl : parseSelectorsLoop fuel [] st with e | ⟨l, st3⟩
  · rw [hl] at h
    cases h
  · rw [hl] at h
    have h2 : sortStable selGE l = sels := congrArg Prod.fst (Except.ok.inj h)
    rw [← h2]
    exact pairwise_sortStable selGE_total selGE_trans l

theorem parseRuleP_sorted {fuel : Nat} {st st2 : PState} {r : Rule}
    (h : parseRuleP fuel st = .ok (r, st2)) :
    r.selectors.Pairwise (fun a b => selGE a b = true) := by
  rw [parseRuleP] at h
  rcases hs : parseSelectorsP fuel st with e | ⟨sels, st3⟩
  · rw [hs] at h
    cases h
  · rw [hs] at h
    dsimp only at h
    rcases hd : parseDeclarationsP fuel st3 with e | ⟨ds, st4⟩
    · rw [hd] at h
      cases h
    · rw [hd] at h
      have h2 : (⟨sels, ds⟩ : Rule) = r := congrArg Prod.fst (Except.ok.inj h)
      rw [← h2]
      exact parseSelectorsP_sorted hs

theorem parseRulesLoop_sorted (fuel : Nat) :
    ∀ (acc : List Rule) (st : PState) (rules : List Rule) (st2 : PState),
    (∀ r ∈ acc, r.selectors.Pairwise (fun a b => selGE a b = true)) →
    parseRulesLoop fuel acc st = .ok (rules, st2) →
    ∀ r ∈ rules, r.selectors.Pairwise (fun a b => selGE a b = true) := by
  induction fuel with
  | zero =>
    intro acc st rules st2 hacc h
    rw [parseRulesLoop] at h
    cases h
  | succ f ih =>
    intro acc st rules st2 hacc h
    simp only [parseRulesLoop] at h
    by_cases he : (consumeWhitespaceP f st).input.length ≤ (consumeWhitespaceP f st).pos
    · rw [if_pos he] at h
      have h2 : acc = rules := congrArg Prod.fst (Except.ok.inj h)
      rw [← h2]
      exact hacc
    · rw [if_neg he] at h
      rcases hr : parseRuleP f (consumeWhitespaceP f st) with e | ⟨r0, st3⟩
      · rw [hr] at h
        cases h
      · rw [hr] at h
        refine ih (acc ++ [r0]) st3 rules st2 ?_ h
        intro r hrm
        rcases List.mem_append.mp hrm with hrm | hrm
        · exact hacc r hrm
        · rw [List.mem_singleton.mp hrm]
          exact parseRuleP_sorted hr

theorem find?_max_selector {l : List Selector} {e : ElementData} {x : Selector}
    (hp : l.Pairwise (fun a b => selGE a b = true))
    (h : l.find? (fun s => matchesSel e s) = some x) :
    matchesSel e x = true ∧ x ∈ l ∧
      ∀ y ∈ l, matchesSel e y = true → selGE x y = true := by
  induction l with
  | nil => cases h
  | cons s l ih =>
    rcases List.pairwise_cons.mp hp with ⟨hhead, htail⟩
    cases hm : matchesSel e s with
    | true =>
      simp only [List.find?_cons, hm] at h
      have hsx : s = x := Option.some.inj h
      subst hsx
      refine ⟨hm, List.mem_cons_self _ _, ?_⟩
      intro y hy hmy
      rcases List.mem_cons.mp hy with rfl | hy
      · exact lexLE_refl _
      · exact hhead y hy
    | false =>
      simp only [List.find?_cons, hm] at h
      obtain ⟨hmx, hxm, hmax⟩ := ih htail h
      refine ⟨hmx, List.mem_cons_of_mem _ hxm, ?_⟩
      intro y hy hmy
      rcases List.mem_cons.mp hy with rfl | hy
      · rw [hm] at hmy
        cases hmy
      · exact hmax y hy hmy

/-- Claim C2: every rule produced by the stylesheet parser has its selector
list sorted descending by specificity, so the first matching selector found
by `match_rule`'s linear scan is a highest-specificity matching selector and
supplies the rule's effective specificity in the cascade key built by
`specified_values`. -/
theorem claim2_selector_order (src : Str) (o : Origin) (sheet : Stylesheet)
    (hp : cssParse src o = .ok sheet) :
    ∀ r ∈ sheet.rules,
      r.selectors.Pairwise (fun a b => selGE a b = true)
      ∧ (∀ (e : ElementData) (sp : Specificity) (r2 : Rule),
          matchRule e r = some (sp, r2) →
            r2 = r
            ∧ (∃ sel ∈ r.selectors, matchesSel e sel = true ∧ sel.specificity = sp)
            ∧ (∀ sel ∈ r.selectors, matchesSel e sel = true →
                lexLE (spec3 sel.specificity) (spec3 sp) = true))
      ∧ (∀ (e : ElementData) (o2 : Origin) (i : Nat) (sp : Specificity) (r2 : Rule),
          matchRule e r = some (sp, r2) →
            ruleCandidates e o2 i r
              = r.declarations.map
                  (fun d => ⟨d, (originImportance o2 d.important, sp, i)⟩)) := by
  intro r hr
  have hsorted : r.selectors.Pairwise (fun a b => selGE a b = true) := by
    rw [cssParse] at hp
    rcases hl : parseRulesLoop (src.length + 1) [] ⟨0, src⟩ with e | ⟨rules, st2⟩
    · rw [hl] at hp
      cases hp
    · rw [hl] at hp
      have h2 : (⟨rules, o⟩ : Stylesheet) = sheet := Except.ok.inj hp
      have h3 : r ∈ rules := by
        rw [← h2] at hr
        exact hr
      exact parseRulesLoop_sorted _ [] _ rules st2 (by simp) hl r h3
  refine ⟨hsorted, ?_, ?_⟩
  · intro e sp r2 hm
    rw [matchRule] at hm
    rcases hf : r.selectors.find? (fun s => matchesSel e s) with _ | x
    · rw [hf] at hm
      cases hm
    · rw [hf] at hm
      have h2 : (x.specificity, r) = (sp, r2) := Option.some.inj hm
      have hsp : x.specificity = sp := congrArg Prod.fst h2
      have hr2 : r = r2 := congrArg Prod.snd h2
      obtain ⟨hmx, hxmem, hmax⟩ := find?_max_selector hsorted hf
      refine ⟨hr2.symm, ⟨x, hxmem, hmx, hsp⟩, ?_⟩
      intro sel hsel hms
      rw [← hsp]
      exact hmax sel hsel hms
  · intro e o2 i sp r2 hm
    rw [ruleCandidates, hm]

def w2src : Str := "div, #a ".toList ++ [lbrace] ++ " color: red; ".toList ++ [rbrace]

def w2sheet : Stylesheet :=
  ⟨[⟨[.simple ⟨none, some "a".toList, []⟩, .simple ⟨some "div".toList, none, []⟩],
     [⟨"color".toList, .keyword "red".toList, false⟩]⟩], .author⟩

/-- Witness for claim C2: parsing `div, #a { color: red; }` yields the
selector list already sorted `#a` (specificity (1,0,0)) before `div`
((0,0,1)), and every rule of the parsed sheet is sorted. -/
theorem claim2_witness :
    cssParse w2src .author = .ok w2sheet
    ∧ ∀ r ∈ w2sheet.rules, r.selectors.Pairwise (fun a b => selGE a b = true) := by
  have hp : cssParse w2src .author = .ok w2sheet := by rfl
  exact ⟨hp, fun r hr => (claim2_selector_order w2src .author w2sheet hp r hr).1⟩

/-! ### Inheritance lemmas, claims C5 and C10 -/

theorem inheritFold_preserve {p : Str} (ps : List (Str × Value)) :
    ∀ values : PropertyMap, (∀ kv ∈ ps, kv.1 ≠ p) →
    alookup (inheritFold values ps) p = alookup values p := by
  induction ps with
  | nil =>
    intro values _
    rfl
  | cons qv rest ih =>
    intro values hk
    obtain ⟨q, v⟩ := qv
    have hqp : q ≠ p := hk (q, v) (List.mem_cons_self _ _)
    have hrest : ∀ kv ∈ rest, kv.1 ≠ p := fun kv hkv => hk kv (List.mem_cons_of_mem _ hkv)
    simp only [inheritFold]
    rw [ih _ hrest]
    by_cases hc : alookup values q = some Value.inherit ∨
        (isInheritedProperty q = true ∧ alookup values q = none)
    · rw [if_pos hc, alookup_mapInsert, if_neg hqp]
    · rw [if_neg hc]

theorem initFold_preserve_some {values : PropertyMap} {p : Str} {v : Value}
    (l : List Str) (h : alookup values p = some v) :
    alookup (initFold values l) p = some v := by
  induction l generalizing values with
  | nil => exact h
  | cons q rest ih =>
    simp only [initFold]
    by_cases hq : q = p
    · subst hq
      rw [if_neg (by rw [h]; exact fun hc => Option.noConfusion hc)]
      exact ih h
    · by_cases hn : alookup values q = none
      · rw [if_pos hn]
        exact ih (by rw [alookup_mapInsert, if_neg hq]; exact h)
      · rw [if_neg hn]
        exact ih h

theorem inheritFold_lookup (p : Str) (ps : List (Str × Value)) :
    ∀ values : PropertyMap, (ps.map Prod.fst).Nodup →
    alookup (inheritFold values ps) p
      = match alookup ps p with
        | some v =>
          if alookup values p = some Value.inherit ∨
             (isInheritedProperty p = true ∧ alookup values p = none)
          then some v else alookup values p
        | none => alookup values p := by
  induction ps with
  | nil =>
    intro values _
    simp [inheritFold, alookup]
  | cons qv rest ih =>
    intro values hnd
    obtain ⟨q, v⟩ := qv
    simp only [List.map_cons, List.nodup_cons] at hnd
    obtain ⟨hqn, hnd2⟩ := hnd
    have hqrest : ∀ kv ∈ rest, kv.1 ≠ q := by
      intro kv hkv he
      exact hqn (he ▸ List.mem_map_of_mem Prod.fst hkv)
    have hstep : inheritFold values ((q, v) :: rest)
        = inheritFold (if alookup values q = some Value.inherit ∨
            (isInheritedProperty q = true ∧ alookup values q = none)
          then mapInsert values q v else values) rest := rfl
    by_cases hqp : q = p
    · subst hqp
      have hnone : alookup rest q = none :=
        (alookup_eq_none_iff rest q).mpr hqrest
      rw [hstep, ih _ hnd2, hnone]
      have hscrut : alookup ((q, v) :: rest) q = some v := by
        simp [alookup]
      rw [hscrut]
      show alookup (if alookup values q = some Value.inherit ∨
            (isInheritedProperty q = true ∧ alookup values q = none)
          then mapInsert values q v else values) q
        = if alookup values q = some Value.inherit ∨
            (isInheritedProperty q = true ∧ alookup values q = none)
          then some v else alookup values q
      by_cases hc : alookup values q = some Value.inherit ∨
          (isInheritedProperty q = true ∧ alookup values q = none)
      · rw [if_pos hc, if_pos hc, alookup_mapInsert, if_pos rfl]
      · rw [if_neg hc, if_neg hc]
    · rw [hstep, ih _ hnd2]
      have hscrut : alookup ((q, v) :: rest) p = alookup rest p := by
        simp [alookup, hqp]
      rw [hscrut]
      have hv2 : alookup
          (if alookup values q = some Value.inherit ∨
              (isInheritedProperty q = true ∧ alookup values q = none)
           then mapInsert values q v else values) p = alookup values p := by
        by_cases hc : alookup values q = some Value.inherit ∨
            (isInheritedProperty q = true ∧ alookup values q = none)
        · rw [if_pos hc, alookup_mapInsert, if_neg hqp]
        · rw [if_neg hc]
      rw [hv2]

theorem applyInheritance_empty (pmap : PropertyMap) (p : Str)
    (hnd : (pmap.map Prod.fst).Nodup) :
    alookup (applyInheritance [] (some pmap)) p
      = if isInheritedProperty p = true then alookup pmap p else none := by
  rw [applyInheritance, inheritFold_lookup p pmap [] hnd]
  cases h : alookup pmap p with
  | none => simp [alookup]
  | some v =>
    by_cases hinh : isInheritedProperty p = true
    · simp [alookup, hinh]
    · simp [alookup, hinh]

/-- Claim C5 (amended): a Text node with a resolved parent map receives, for
each property in the fixed inheritable set, exactly the parent's value, and
nothing else (it contributes no specified values of its own); a Comment node,
however, receives an empty PropertyMap and inherits nothing. -/
theorem claim5_text_inherits_comment_empty (sheets : List Stylesheet)
    (pmap : PropertyMap) (s : Str) (p : Str)
    (hnd : (pmap.map Prod.fst).Nodup) :
    alookup ((styleTreeWithParent sheets (some pmap)
        (.mk [] (.text s))).specified_values) p
      = (if isInheritedProperty p = true then alookup pmap p else none)
    ∧ (styleTreeWithParent sheets (some pmap)
        (.mk [] (.comment s))).specified_values = [] := by
  constructor
  · show alookup (applyInheritance [] (some pmap)) p = _
    exact applyInheritance_empty pmap p hnd
  · rfl

def c5parent : Node :=
  .mk [.mk [] (.comment "x".toList)] (.element ⟨"div".toList, []⟩)

/-- Counterexample to claim C5 as stated: a Comment child of an element whose
resolved PropertyMap contains the inheritable property `color`; the comment's
own PropertyMap is empty, so it does not contain the parent's value for any
inheritable property. -/
theorem claim5_counterexample :
    isInheritedProperty "color".toList = true
    ∧ alookup ((styleTreeWithParent [] none c5parent).specified_values) "color".toList
        = some (.colorValue ⟨0, 0, 0, 255⟩)
    ∧ ((styleTreeWithParent [] none c5parent).children.map
        (fun c => c.specified_values)) = [[]] :=
  ⟨by decide, by decide, by decide⟩

/-- Witness for the amended claim C5 at a concrete parent map. -/
theorem claim5_witness :
    alookup ((styleTreeWithParent [] (some [("color".toList, Value.keyword "green".toList)])
        (.mk [] (.text "hi".toList))).specified_values) "color".toList
      = (if isInheritedProperty "color".toList = true
         then alookup [("color".toList, Value.keyword "green".toList)] "color".toList
         else none)
    ∧ (styleTreeWithParent [] (some [("color".toList, Value.keyword "green".toList)])
        (.mk [] (.comment "hi".toList))).specified_values = [] :=
  claim5_text_inherits_comment_empty [] _ "hi".toList "color".toList (by decide)

/-! ### Claim C10 -/

/-- Claim C10: when a child element's own specified value for a property is
the `Inherit` sentinel and the parent's resolved map does not contain that
property, the literal `Inherit` value remains in the child's final
PropertyMap — inheritance copies nothing for it, and the initial-value pass
(which covers `display`, `color`, `font-size`) only fills absent keys — so
the layout consumer can observe an `Inherit` value. -/
theorem claim10_inherit_sentinel (sheets : List Stylesheet) (e : ElementData)
    (children : List Node) (pmap : PropertyMap) (p : Str)
    (h1 : alookup (specifiedValues e sheets) p = some Value.inherit)
    (h2 : alookup pmap p = none) :
    alookup ((styleTreeWithParent sheets (some pmap)
        (.mk children (.element e))).specified_values) p = some Value.inherit := by
  show alookup (applyInitialValues
      (applyInheritance (specifiedValues e sheets) (some pmap))) p = some Value.inherit
  have h3 : alookup (applyInheritance (specifiedValues e sheets) (some pmap)) p
      = some Value.inherit := by
    rw [applyInheritance, inheritFold_preserve pmap _ ((alookup_eq_none_iff pmap p).mp h2)]
    exact h1
  exact initFold_preserve_some _ h3

def w10elem : ElementData :=
  ⟨"p".toList, [("style".toList, "margin: inherit;".toList)]⟩

/-- Witness for claim C10: `margin: inherit` on the element, no `margin` in
the parent map; the styled node still shows the `Inherit` sentinel. -/
theorem claim10_witness :
    alookup ((styleTreeWithParent [] (some [("color".toList, Value.keyword "red".toList)])
        (.mk [] (.element w10elem))).specified_values) "margin".toList
      = some Value.inherit :=
  claim10_inherit_sentinel [] w10elem [] _ "margin".toList (by decide) (by decide)

/-! ### Claim C6 -/

/-- Claim C6: when the element's `style` attribute text fails to parse,
resolution contributes zero inline candidates, the failure never escapes
(`parseStyleAttribute` returns `none` and resolution proceeds), the resolved
map equals what the matching stylesheet rules alone produce, the styled
node's final map is that rule-only map put through inheritance from the
parent and initial values, the element's resolved map is independent of its
children (so ancestors are unaffected), and siblings are styled by
independent invocations on the same inputs. -/
theorem claim6_inline_failure_isolation (e : ElementData) (sheets : List Stylesheet)
    (sa : Str) (pv : Option PropertyMap) (children : List Node)
    (h1 : alookup e.attrs "style".toList = some sa)
    (h2 : parseStyleAttribute sa = none) :
    inlineCandidates e = []
    ∧ specifiedValues e sheets = ruleOnlySpecifiedValues e sheets
    ∧ (styleTreeWithParent sheets pv (.mk children (.element e))).specified_values
        = applyInitialValues (applyInheritance (ruleOnlySpecifiedValues e sheets) pv)
    ∧ (∀ cs2 : List Node,
        (styleTreeWithParent sheets pv (.mk children (.element e))).specified_values
          = (styleTreeWithParent sheets pv (.mk cs2 (.element e))).specified_values)
    ∧ (∀ (sib : Node) (pv2 : Option PropertyMap),
        styleChildren sheets pv2 [Node.mk children (.element e), sib]
          = [styleTreeWithParent sheets pv2 (Node.mk children (.element e)),
             styleTreeWithParent sheets pv2 sib]) := by
  have h3 : inlineCandidates e = [] := by
    rw [inlineCandidates]
    simp only [h1, h2, List.map_nil]
  have h4 : specifiedValues e sheets = ruleOnlySpecifiedValues e sheets := by
    rw [specifiedValues, ruleOnlySpecifiedValues, allCandidates, h3, List.append_nil]
  refine ⟨h3, h4, ?_, ?_, ?_⟩
  · show applyInitialValues (applyInheritance (specifiedValues e sheets) pv) = _
    rw [h4]
  · intro cs2
    rfl
  · intro sib pv2
    rfl

def w6elem : ElementData := ⟨"p".toList, [("style".toList, "color".toList)]⟩

def w6sheet : Stylesheet :=
  ⟨[⟨[.simple ⟨some "p".toList, none, []⟩],
     [⟨"display".toList, .keyword "block".toList, false⟩]⟩], .author⟩

/-- Witness for claim C6: `style="color"` (no colon) fails to parse; the
element still resolves from the matching stylesheet rule alone. -/
theorem claim6_witness :
    inlineCandidates w6elem = []
    ∧ specifiedValues w6elem [w6sheet] = ruleOnlySpecifiedValues w6elem [w6sheet] :=
  ⟨(claim6_inline_failure_isolation w6elem [w6sheet] "color".toList none []
      (by decide) (by decide)).1,
   (claim6_inline_failure_isolation w6elem [w6sheet] "color".toList none []
      (by decide) (by decide)).2.1⟩

/-! ### Claim C7 -/

/-- Claim C7 evaluated at the failing input (code bug): `'9'` is a decimal
digit, yet `parseValue` on `"9px"` takes the identifier branch and returns
`Keyword "9px"` — the dispatch guard is the source's EXCLUSIVE Rust range
pattern `'0'..'9'`, which does not contain `'9'`. Lookaheads `'0'`..`'8'`
do dispatch to `parseLength` (shown at `"0px"`). -/
theorem claim7_digit_nine_dispatch :
    Char.isDigit '9' = true
    ∧ digitExclusive9 '9' = false
    ∧ parseValueP 10 ⟨0, "9px".toList⟩ = .ok (.keyword "9px".toList, ⟨3, "9px".toList⟩)
    ∧ digitExclusive9 '0' = true
    ∧ (∃ q st2, parseValueP 10 ⟨0, "0px".toList⟩ = .ok (.length q .px, st2)) :=
  ⟨by decide, by decide, rfl, by decide, ⟨_, _, rfl⟩⟩

/-! ### Claim C8 -/

/-- Claim C8: whenever fewer than 2 characters remain where a 2-hex-digit
pair is expected, `parse_hex_pair` returns the bounds-check error carrying
the failure position `pos + 2` (never an unchecked out-of-range access into
the source), and `parse_color` surfaces the same error (at `pos + 3` for its
first pair, counting the consumed `#`). -/
theorem claim8_hex_pair_bounds (st : PState) :
    (st.input.length < st.pos + 2 →
      parseHexPairP st = .error (.sliceFail (st.pos + 2))
      ∧ panicPosition (.sliceFail (st.pos + 2)) = some (st.pos + 2))
    ∧ (st.input[st.pos]? = some '#' → st.input.length < st.pos + 3 →
      parseColorP st = .error (.sliceFail (st.pos + 3))) := by
  constructor
  · intro h
    refine ⟨?_, rfl⟩
    rw [parseHexPairP, if_pos h]
  · intro hc h
    have he : expectCharP '#' st = .ok ⟨st.pos + 1, st.input⟩ := by
      rw [expectCharP, consumeCharP, hc]
      simp
    have h2 : parseHexPairP ⟨st.pos + 1, st.input⟩ = .error (.sliceFail (st.pos + 3)) := by
      rw [parseHexPairP]
      have hcond : st.input.length < st.pos + 1 + 2 := by omega
      rw [if_pos hcond]
    simp only [parseColorP, he, h2]

/-- Witness for claim C8 at concrete short inputs. -/
theorem claim8_witness :
    parseHexPairP ⟨0, "f".toList⟩ = .error (.sliceFail 2)
    ∧ parseColorP ⟨0, "#f".toList⟩ = .error (.sliceFail 3) :=
  ⟨((claim8_hex_pair_bounds ⟨0, "f".toList⟩).1 (by decide)).1,
   (claim8_hex_pair_bounds ⟨0, "#f".toList⟩).2 (by decide) (by decide)⟩

/-! ### Claim C9 -/

/-- Counterexample to claim C9 as stated: at the length token `1.2.3px` the
digit-and-dot run is `1.2.3` (two dots) and `parseLength` fails with the
error of the underlying numeric string-to-float conversion
(`parse().unwrap()` on a `ParseFloatError`), which carries no failure
offset — not a parser-defined syntax error with the failure offset. -/
theorem claim9_counterexample :
    (consumeWhileP 8 (fun c => digitExclusive9 c || c = '.')
        ⟨0, "1.2.3px".toList⟩).1.count '.' = 2
    ∧ parseLengthP 8 ⟨0, "1.2.3px".toList⟩ = .error .floatConvFail
    ∧ panicPosition .floatConvFail = none :=
  ⟨by decide, rfl, rfl⟩

/-- Claim C9 (amended): whenever the digit-and-dot run of a length token
contains more than one `.`, `parseFloat` — and hence `parseLength` — fails
with the error of the underlying numeric string-to-float conversion, a
failure that carries no offset, rather than a parser-defined syntax error
with the failure offset. -/
theorem claim9_float_unwrap (fuel : Nat) (st : PState)
    (h : 2 ≤ (consumeWhileP fuel (fun c => digitExclusive9 c || c = '.') st).1.count '.') :
    parseFloatP fuel st = .error .floatConvFail
    ∧ parseLengthP fuel st = .error .floatConvFail
    ∧ panicPosition .floatConvFail = none := by
  have hd : decide ((consumeWhileP fuel (fun c => digitExclusive9 c || c = '.') st).1.count '.'
      ≤ 1) = false := decide_eq_false (by omega)
  have hp : rustParseF32
      (consumeWhileP fuel (fun c => digitExclusive9 c || c = '.') st).1 = none := by
    rw [rustParseF32]
    simp only [hd, Bool.and_false, Bool.false_eq_true, if_false]
  have hf : parseFloatP fuel st = .error .floatConvFail := by
    rw [parseFloatP]
    rw [hp]
  refine ⟨hf, ?_, rfl⟩
  rw [parseLengthP, hf]

/-- Witness for the amended claim C9 at the concrete token `1.2.3px`. -/
theorem claim9_witness :
    parseFloatP 8 ⟨0, "1.2.3px".toList⟩ = .error .floatConvFail
    ∧ parseLengthP 8 ⟨0, "1.2.3px".toList⟩ = .error .floatConvFail
    ∧ panicPosition .floatConvFail = none :=
  claim9_float_unwrap 8 ⟨0, "1.2.3px".toList⟩ (by decide)

def w1elem : ElementData := ⟨"p".toList, [("style".toList, "color: red;".toList)]⟩

def w1sheet : Stylesheet :=
  ⟨[⟨[.simple ⟨some "p".toList, none, []⟩],
     [⟨"color".toList, .keyword "blue".toList, false⟩]⟩], .author⟩

/-- Witness instantiating claim C1 at a concrete element that has both a
matching rule declaration and an inline declaration for `color`. -/
theorem claim1_witness :
    (candidatesFor w1elem [w1sheet] "color".toList = []
      ∧ alookup (specifiedValues w1elem [w1sheet]) "color".toList = none)
    ∨ ∃ c ∈ candidatesFor w1elem [w1sheet] "color".toList,
        (∀ c2 ∈ candidatesFor w1elem [w1sheet] "color".toList, candLE c2 c = true)
        ∧ alookup (specifiedValues w1elem [w1sheet]) "color".toList
            = some c.declaration.value :=
  claim1_max_key_wins w1elem [w1sheet] "color".toList

end Browser
